import Mathlib

/-!
Verification of the stock-image metadata generator's core algorithms,
shallowly embedded from `src/main.py`.

Python string primitives (`str.strip`, `str.lower`, `str.split`) are
embedded as structurally recursive functions on the character list of a
`String`, so that every definition evaluates inside the kernel.  Network
calls are modelled by passing the service's reply (or its failure) as an
explicit argument; the file system behind the record store is modelled as
a map from folder path to the list of rows of its `_metadata.csv` table.
-/

namespace StockMeta

/-- Embedding of Python `str.strip()`: drop whitespace from both ends. -/
def pyStrip (s : String) : String :=
  ⟨((s.data.dropWhile Char.isWhitespace).reverse.dropWhile Char.isWhitespace).reverse⟩

/-- Embedding of Python `str.lower()` (ASCII case folding). -/
def pyLower (s : String) : String :=
  ⟨s.data.map Char.toLower⟩

/-- Helper for `splitOnChar`: accumulates the current token in reverse. -/
def splitOnCharAux (sep : Char) : List Char → List Char → List String
  | [], acc => [⟨acc.reverse⟩]
  | c :: cs, acc =>
    if c = sep then ⟨acc.reverse⟩ :: splitOnCharAux sep cs []
    else splitOnCharAux sep cs (c :: acc)

/-- Embedding of Python `s.split(sep)` for a one-character separator. -/
def splitOnChar (sep : Char) (s : String) : List String :=
  splitOnCharAux sep s.data []

/-- Embedding of Python `s.split(",")` (the comma is character code 44). -/
def splitComma (s : String) : List String :=
  splitOnChar (Char.ofNat 44) s

/-- Platform keyword ceiling for Adobe Stock (src/main.py line 46). -/
def ADOBE_MAX : Nat := 49

/-- Platform keyword ceiling for Shutterstock (src/main.py line 47). -/
def SHUTTER_MAX : Nat := 50

/-- Platform keyword ceiling for iStock (src/main.py line 48). -/
def ISTOCK_MAX : Nat := 50

/-- Video file extensions (src/main.py line 50). -/
def VIDEO_EXTS : List String :=
  [".mp4", ".mov", ".avi", ".mkv", ".m4v", ".wmv"]

/-!  `fill_keywords_to_max` (src/main.py lines 231-243).  -/

/-- Loop body of `fill_keywords_to_max` (src/main.py lines 235-242): iterate
candidates in order; stop as soon as `out` has reached `max_count` entries;
skip blank candidates and candidates whose stripped lowercase form is already
in `seen`; otherwise record the stripped lowercase form in `seen` and append
the stripped candidate to `out`. -/
def fillLoop (max_count : Nat) : List String → List String → List String → List String
  | _, out, [] => out
  | seen, out, k :: ks =>
    if out.length ≥ max_count then out
    else
      let t := pyStrip k
      if t = "" ∨ pyLower t ∈ seen then fillLoop max_count seen out ks
      else fillLoop max_count (pyLower t :: seen) (out ++ [t]) ks

/-- The set of terms already present, case-insensitively: Python
`{k.strip().lower() for k in existing if k and k.strip()}` (line 233). -/
def initialSeen (existing : List String) : List String :=
  (existing.filter (fun k => decide (k ≠ "") && decide (pyStrip k ≠ ""))).map
    (fun k => pyLower (pyStrip k))

/-- Embedding of `fill_keywords_to_max(existing, max_count, candidates)`
(src/main.py lines 231-243). -/
def fill_keywords_to_max (existing : List String) (max_count : Nat)
    (candidates : List String) : List String :=
  fillLoop max_count (initialSeen existing) existing candidates

/-!  Keyword generation `api_keywords` (src/main.py lines 181-207) and the
per-platform pipeline steps of `App._generate` (lines 832-848).  -/

/-- Characters removed by `re.sub(r'[\"\'\*\-\n\d\.]','',raw)` on line 206:
double quote (34), apostrophe (39), asterisk (42), hyphen (45),
newline (10), any decimal digit, and the full stop (46). -/
def isNoiseChar (c : Char) : Bool :=
  c.toNat = 34 || c.toNat = 39 || c.toNat = 42 || c.toNat = 45 ||
    c.toNat = 10 || c.isDigit || c.toNat = 46

/-- The noise-character substitution applied to the raw model reply. -/
def stripNoise (s : String) : String :=
  ⟨s.data.filter (fun c => !isNoiseChar c)⟩

/-- Sanitisation step of `api_keywords` applied to the model's raw reply
(src/main.py lines 206-207): strip noise characters, split on commas, strip
each token, drop blanks, keep the first 50. -/
def api_keywords (raw : String) : List String :=
  ((((splitComma (stripNoise raw)).map pyStrip).filter
      (fun k => decide (k ≠ ""))).take 50)

/-- The iStock vocabulary mapping `map_istock` (src/main.py line 76):
replace each term whose lowered, stripped form is a key of the learned
dictionary `d` with the mapped term, keeping all other terms unchanged.
The dictionary is modelled as a partial function. -/
def map_istock (d : String → Option String) (kws : List String) : List String :=
  kws.map (fun k => (d (pyStrip (pyLower k))).getD k)

/-- Adobe keyword list of one generation run (src/main.py lines 838-841):
truncate the base list to `ADOBE_MAX`; when short, pad from the sanitised
extra model reply using `fill_keywords_to_max`.  `base_kw` is the list
returned by EveryPixel or a first `api_keywords` call; `groq_raw` is the raw
text of the conditional extra padding call. -/
def adobe_en (base_kw : List String) (groq_raw : String) : List String :=
  let a := base_kw.take ADOBE_MAX
  if a.length < ADOBE_MAX then fill_keywords_to_max a ADOBE_MAX (api_keywords groq_raw)
  else a

/-- Shutterstock keyword list of one run (src/main.py line 844). -/
def shutter_en (raw : String) : List String :=
  (api_keywords raw).take SHUTTER_MAX

/-- iStock keyword list of one run (src/main.py lines 847-848). -/
def istock_en (d : String → Option String) (raw : String) : List String :=
  map_istock d ((api_keywords raw).take ISTOCK_MAX)

/-!  Keyword translation `api_translate_kw` (src/main.py lines 215-221).  -/

/-- Embedding of `api_translate_kw(kws, key)` (src/main.py lines 215-221).
`resp` is the translation service's reply to the joined chunk, or `none`
when the request raised: on failure return `kws` unchanged; otherwise split
the reply on commas, strip each part, and return `(parts + kws)[:len(kws)]`. -/
def api_translate_kw (kws : List String) (resp : Option String) : List String :=
  match resp with
  | none => kws
  | some raw => (((splitComma raw).map pyStrip) ++ kws).take kws.length

/-!  Record store `load_db` / `save_db` (src/main.py lines 79-99).  -/

/-- One row of the per-folder `_metadata.csv` table, with the column schema
`CSV_H` of src/main.py lines 79-83. -/
structure Record where
  file_path : String
  file_name : String
  created_at : String
  title_en : String
  title_tr : String
  description_en : String
  description_tr : String
  adobe_keywords_en : String
  adobe_keywords_tr : String
  shutter_keywords_en : String
  shutter_keywords_tr : String
  istock_keywords_en : String
  istock_keywords_tr : String
deriving DecidableEq

/-- Python `dict` insertion `db[k] = v`: an existing key keeps its position
and gets the new value; a fresh key is appended at the end. -/
def dictInsert (m : List (String × Record)) (k : String) (v : Record) :
    List (String × Record) :=
  if m.any (fun p => decide (p.1 = k)) then
    m.map (fun p => if p.1 = k then (k, v) else p)
  else m ++ [(k, v)]

/-- Lookup in the insertion-ordered dictionary. -/
def alookup (k : String) : List (String × Record) → Option Record
  | [] => none
  | p :: ps => if p.1 = k then some p.2 else alookup k ps

/-- The dict comprehension `{r["file_path"]: r for r in csv.DictReader(f)}`
of `load_db` (src/main.py line 91). -/
def buildDict (rows : List Record) : List (String × Record) :=
  rows.foldl (fun m r => dictInsert m r.file_path r) []

/-- The persisted state: each folder maps to the rows of its `_metadata.csv`,
or `none` when the table does not exist yet. -/
def Store : Type := String → Option (List Record)

/-- Embedding of `load_db(folder)` (src/main.py lines 87-91): empty map when
the table is missing, otherwise the path-keyed dictionary of its rows. -/
def load_db (s : Store) (folder : String) : List (String × Record) :=
  match s folder with
  | none => []
  | some rows => buildDict rows

/-- Embedding of `save_db(folder, record)` (src/main.py lines 93-99): load
the current table, set `db[record.file_path] = record`, and rewrite the
whole table as the dictionary's values in order. -/
def save_db (s : Store) (folder : String) (record : Record) : Store :=
  fun f =>
    if f = folder then
      some ((dictInsert (load_db s folder) record.file_path record).map Prod.snd)
    else s f

/-!  Thumbnails `get_thumb` (src/main.py lines 102-119).  -/

/-- Python `f"{file_path}{w}{h}"` (src/main.py line 104): the undelimited
concatenation hashed to obtain the thumbnail cache key. -/
def keyString (file_path : String) (w h : Nat) : String :=
  file_path ++ toString w ++ toString h

/-- The thumbnail cache key (src/main.py line 104), parametric in the
`md5` hex digest function. -/
def cacheKey (md5hex : String → String) (file_path : String) (w h : Nat) : String :=
  md5hex (keyString file_path w h)

/-- A decoded pixel buffer, modelled by its dimensions and a content tag. -/
structure Img where
  width : Nat
  height : Nat
  content : String
deriving DecidableEq

/-- Python `Image.new("RGB",(w,h),BG)` with the background color constant
`BG = "#0e1117"` of src/main.py line 27. -/
def blankImg (w h : Nat) : Img :=
  ⟨w, h, "#0e1117"⟩

/-- The last component of a path: Python `Path(p).name`, split on the
path separator (character code 47). -/
def fileName (p : String) : String :=
  (splitOnChar (Char.ofNat 47) p).getLastD ""

/-- Index of the last full stop (character code 46) in a character list. -/
def lastDotIdx : List Char → Option Nat
  | [] => none
  | c :: cs =>
    match lastDotIdx cs with
    | some i => some (i + 1)
    | none => if c.toNat = 46 then some 0 else none

/-- Python `Path(p).suffix`: the extension of the final path component,
nonempty only when the last dot is neither the first nor the last
character of the name. -/
def pathSuffix (p : String) : String :=
  let name := fileName p
  match lastDotIdx name.data with
  | some i => if 0 < i ∧ i < name.data.length - 1 then ⟨name.data.drop i⟩ else ""
  | none => ""

/-- The decode results the environment supplies to one `get_thumb` call:
`videoRead` is `cv2.VideoCapture(...).read()` (`none` when `ret` is false),
`imageOpen` is `Image.open(file_path).convert("RGB")` (`Except.error` when
the decode raises). -/
structure MediaEnv where
  videoRead : Option Img
  imageOpen : Except String Img

/-- Embedding of `get_thumb(file_path, w, h)` (src/main.py lines 102-119).
`cache` maps a cache key to the stored canvas of an existing cache file;
`makeCanvas` stands for the pure resize-and-center step (PIL `thumbnail`
plus paste onto a fresh background canvas).  On a cache hit the cached
canvas is returned; otherwise a video path takes the first readable frame,
falling back to a blank background image when no frame is readable, while
any other path decodes as an image, propagating the decode error. -/
def get_thumb (md5hex : String → String) (cache : String → Option Img)
    (makeCanvas : Img → Nat → Nat → Img) (env : MediaEnv)
    (file_path : String) (w h : Nat) : Except String Img :=
  match cache (cacheKey md5hex file_path w h) with
  | some c => Except.ok c
  | none =>
    if pyLower (pathSuffix file_path) ∈ VIDEO_EXTS then
      match env.videoRead with
      | some frame => Except.ok (makeCanvas frame w h)
      | none => Except.ok (makeCanvas (blankImg w h) w h)
    else
      match env.imageOpen with
      | Except.error e => Except.error e
      | Except.ok img => Except.ok (makeCanvas img w h)

/-- Learned iStock dictionary with a two-step chain, used to exhibit the
non-idempotence of `map_istock`. -/
def chainDict : String → Option String :=
  fun s => if s = "a" then some "b" else if s = "b" then some "c" else none

/-- Learned iStock dictionary of the spec's scenario 1:
`{"dog": "Dog (domestic)"}`. -/
def dogDict : String → Option String :=
  fun s => if s = "dog" then some "Dog (domestic)" else none

/-!  Lemmas about the padding loop.  -/

/-- The padding loop never grows `out` beyond any bound `n` dominating both
its initial length and `max_count`: appends happen only while `out` is
still short of `max_count`. -/
theorem fillLoop_length_le (max_count n : Nat) (ks : List String) :
    ∀ seen out, out.length ≤ n → max_count ≤ n →
      (fillLoop max_count seen out ks).length ≤ n := by
  induction ks with
  | nil =>
    intro seen out hout _
    simpa [fillLoop] using hout
  | cons k ks ih =>
    intro seen out hout hmax
    simp only [fillLoop]
    by_cases hge : out.length ≥ max_count
    · rw [if_pos hge]
      exact hout
    · rw [if_neg hge]
      by_cases hskip : pyStrip k = "" ∨ pyLower (pyStrip k) ∈ seen
      · rw [if_pos hskip]
        exact ih _ _ hout hmax
      · rw [if_neg hskip]
        refine ih _ _ ?_ hmax
        have hlen : (out ++ [pyStrip k]).length = out.length + 1 := by simp
        omega

/-- The padding loop only appends: the result is `out` followed by a block
of candidates whose lowered forms are pairwise distinct and lie outside the
initial `seen` set. -/
theorem fillLoop_suffix (max_count : Nat) (ks : List String) :
    ∀ seen out, ∃ app, fillLoop max_count seen out ks = out ++ app ∧
      (app.map pyLower).Nodup ∧ ∀ a ∈ app, pyLower a ∉ seen := by
  induction ks with
  | nil =>
    intro seen out
    exact ⟨[], by simp [fillLoop], by simp, by simp⟩
  | cons k ks ih =>
    intro seen out
    simp only [fillLoop]
    by_cases hge : out.length ≥ max_count
    · rw [if_pos hge]
      exact ⟨[], by simp, by simp, by simp⟩
    · rw [if_neg hge]
      by_cases hskip : pyStrip k = "" ∨ pyLower (pyStrip k) ∈ seen
      · rw [if_pos hskip]
        exact ih seen out
      · rw [if_neg hskip]
        obtain ⟨app, heq, hnd, hnin⟩ :=
          ih (pyLower (pyStrip k) :: seen) (out ++ [pyStrip k])
        push_neg at hskip
        refine ⟨pyStrip k :: app, ?_, ?_, ?_⟩
        · rw [heq, List.append_assoc]
          rfl
        · simp only [List.map_cons, List.nodup_cons]
          refine ⟨?_, hnd⟩
          intro hmem
          obtain ⟨a, ha, hpa⟩ := List.mem_map.mp hmem
          exact hnin a ha (hpa ▸ List.mem_cons_self _ _)
        · intro a ha
          rcases List.mem_cons.mp ha with rfl | ha
          · exact hskip.2
          · intro hmem
            exact hnin a ha (List.mem_cons_of_mem _ hmem)

/-- Padding from a list no longer than the cap never exceeds the cap. -/
theorem fill_length_le (existing : List String) (max_count : Nat)
    (candidates : List String) (h : existing.length ≤ max_count) :
    (fill_keywords_to_max existing max_count candidates).length ≤ max_count := by
  simp only [fill_keywords_to_max]
  exact fillLoop_length_le max_count max_count candidates (initialSeen existing)
    existing h (Nat.le_refl _)

/-!  Claim C1.  -/

/-- Claim C1 as stated is false: `fill_keywords_to_max` only ever appends,
so when `existing` is already longer than `max_count` the result keeps all
of `existing` — here `fill_keywords_to_max(["a","b"], 1, [])` has length 2,
exceeding the cap 1. -/
theorem c1_counterexample :
    ¬ (fill_keywords_to_max ["a", "b"] 1 []).length ≤ 1 := by decide

/-- Claim C1 (amended): for every `existing`, `max_count` and `candidates`
with `existing` no longer than `max_count`, the list returned by
`fill_keywords_to_max existing max_count candidates` has length at most
`max_count`. -/
theorem c1_fill_length_le (existing : List String) (max_count : Nat)
    (candidates : List String) (h : existing.length ≤ max_count) :
    (fill_keywords_to_max existing max_count candidates).length ≤ max_count :=
  fill_length_le existing max_count candidates h

/-- Witness for the amended claim C1 at a concrete input. -/
theorem c1_witness :
    ([("a" : String)].length ≤ 2) ∧
      (fill_keywords_to_max ["a"] 2 ["b", "c"]).length ≤ 2 :=
  ⟨by decide, c1_fill_length_le ["a"] 2 ["b", "c"] (by decide)⟩

/-!  Claim C2.  -/

/-- Claim C2 as stated is false: `fill_keywords_to_max` copies `existing`
verbatim and never removes duplicates already inside it, so the spec's
scenario yields `["Sunset","sunset","Beach","Mountain"]` — a list with two
case-insensitively equal entries — not `["Sunset","Beach","Mountain"]`. -/
theorem c2_counterexample :
    fill_keywords_to_max ["Sunset", "sunset", "Beach"] 5
        ["beach", "Mountain", "Mountain"] =
        ["Sunset", "sunset", "Beach", "Mountain"] ∧
      ["Sunset", "sunset", "Beach", "Mountain"] ≠ ["Sunset", "Beach", "Mountain"] ∧
      pyLower "Sunset" = pyLower "sunset" := by decide

/-- Claim C2 (amended): `fill_keywords_to_max` preserves `existing` exactly
(case-insensitive duplicates inside it included) and appends only candidates
that are pairwise case-insensitively distinct and case-insensitively absent
from the nonblank entries of `existing`. -/
theorem c2_fill_appended_unique (existing : List String) (max_count : Nat)
    (candidates : List String) :
    ∃ app, fill_keywords_to_max existing max_count candidates = existing ++ app ∧
      (app.map pyLower).Nodup ∧
      ∀ a ∈ app, pyLower a ∉ initialSeen existing := by
  simp only [fill_keywords_to_max]
  exact fillLoop_suffix max_count candidates (initialSeen existing) existing

/-!  Claim C3.  -/

/-- Claim C3 as stated is false: when the translated reply supplies fewer
parts than there are source words, `(parts + kws)[:len(kws)]` fills the tail
with a prefix of the source list, not with the positionally corresponding
source word — for `["alpha","beta"]` and the one-part reply `"x"` position 1
holds `"alpha"`, not the corresponding `"beta"`. -/
theorem c3_counterexample :
    api_translate_kw ["alpha", "beta"] (some "x") = ["x", "alpha"] ∧
      (["x", "alpha"] : List String) ≠ ["x", "beta"] := by decide

/-- Claim C3 (amended): `api_translate_kw` always returns exactly
`len(words)` entries, on request failure it returns `words` unchanged, and
every position the split reply covers holds the corresponding translated
part; but positions the reply does not cover are filled from the front of
the source list rather than with the positionally corresponding word. -/
theorem c3_translate_length (kws : List String) (resp : Option String) :
    (api_translate_kw kws resp).length = kws.length ∧
      api_translate_kw kws none = kws ∧
      ∀ raw i, resp = some raw → i < ((splitComma raw).map pyStrip).length →
        i < kws.length →
        (api_translate_kw kws resp)[i]? = ((splitComma raw).map pyStrip)[i]? := by
  refine ⟨?_, rfl, ?_⟩
  · cases resp with
    | none => rfl
    | some raw =>
      simp only [api_translate_kw]
      rw [List.length_take, List.length_append]
      exact min_eq_left (Nat.le_add_left _ _)
  · intro raw i hresp hp hk
    subst hresp
    simp only [api_translate_kw]
    rw [List.getElem?_take_of_lt hk, List.getElem?_append_left hp]

/-- Witness for the amended claim C3 at a concrete input. -/
theorem c3_witness :
    (api_translate_kw ["alpha", "beta"] (some "x, y")).length = 2 ∧
      api_translate_kw ["alpha", "beta"] none = ["alpha", "beta"] ∧
      (api_translate_kw ["alpha", "beta"] (some "x, y"))[0]? =
        ((splitComma "x, y").map pyStrip)[0]? :=
  ⟨(c3_translate_length ["alpha", "beta"] (some "x, y")).1,
    (c3_translate_length ["alpha", "beta"] (some "x, y")).2.1,
    (c3_translate_length ["alpha", "beta"] (some "x, y")).2.2 "x, y" 0 rfl
      (by decide) (by decide)⟩

/-!  Claim C4.  -/

/-- Claim C4: within one generation run every platform keyword list
respects its platform ceiling — the Adobe list (base list truncated to 49,
then possibly padded back up to 49) has at most `ADOBE_MAX = 49` entries,
and the Shutterstock and iStock lists have at most 50 entries each. -/
theorem c4_platform_caps (base_kw : List String) (groq_raw s_raw i_raw : String)
    (d : String → Option String) :
    (adobe_en base_kw groq_raw).length ≤ ADOBE_MAX ∧
      (shutter_en s_raw).length ≤ SHUTTER_MAX ∧
      (istock_en d i_raw).length ≤ ISTOCK_MAX := by
  refine ⟨?_, ?_, ?_⟩
  · simp only [adobe_en]
    by_cases hlt : (base_kw.take ADOBE_MAX).length < ADOBE_MAX
    · rw [if_pos hlt]
      exact fill_length_le _ _ _ (le_of_lt hlt)
    · rw [if_neg hlt]
      rw [List.length_take]
      exact min_le_left _ _
  · simp only [shutter_en]
    rw [List.length_take]
    exact min_le_left _ _
  · simp only [istock_en, map_istock]
    rw [List.length_map, List.length_take]
    exact min_le_left _ _

/-!  Claim C5.  -/

/-- Claim C5 as stated is false: `api_keywords` never deduplicates, so a
model reply repeating a term in different case yields a keyword list with
two case-insensitively equal entries. -/
theorem c5_counterexample :
    api_keywords "dog, Dog" = ["dog", "Dog"] ∧ pyLower "dog" = pyLower "Dog" := by
  decide

/-- Claim C5 (amended): keyword generation guarantees only the sanitisation
part of the KeywordSet invariant — at most 50 entries, each nonblank — and
does not enforce case-insensitive distinctness. -/
theorem c5_api_keywords_sanitised (raw : String) :
    (api_keywords raw).length ≤ 50 ∧ ∀ k ∈ api_keywords raw, k ≠ "" := by
  constructor
  · simp only [api_keywords]
    rw [List.length_take]
    exact min_le_left _ _
  · intro k hk
    simp only [api_keywords] at hk
    have hk2 := List.take_subset _ _ hk
    exact of_decide_eq_true (List.mem_filter.mp hk2).2

/-- Witness for the amended claim C5 at a concrete input. -/
theorem c5_witness :
    (api_keywords "wind turbine, sunset").length ≤ 50 ∧
      ("wind turbine" : String) ≠ "" :=
  ⟨(c5_api_keywords_sanitised "wind turbine, sunset").1,
    (c5_api_keywords_sanitised "wind turbine, sunset").2 "wind turbine" (by decide)⟩

/-!  Claim C8.  -/

/-- Claim C8 as stated is false: with the learned dictionary
`{"a": "b", "b": "c"}` a first application maps `["a"]` to `["b"]` and a
second application maps it on to `["c"]`. -/
theorem c8_counterexample :
    map_istock chainDict (map_istock chainDict ["a"]) ≠
      map_istock chainDict ["a"] := by decide

/-- Claim C8 (amended): applying the vocabulary mapping twice equals
applying it once provided every replacement term of the dictionary is a
fixed point of the mapping, i.e. its lowered stripped form is either not a
key or maps back to the replacement itself. -/
theorem c8_map_istock_idem (d : String → Option String) (kws : List String)
    (h : ∀ k v, d k = some v →
      d (pyStrip (pyLower v)) = none ∨ d (pyStrip (pyLower v)) = some v) :
    map_istock d (map_istock d kws) = map_istock d kws := by
  simp only [map_istock, List.map_map]
  apply List.map_congr_left
  intro k _
  simp only [Function.comp]
  cases hd : d (pyStrip (pyLower k)) with
  | none => simp [hd]
  | some v =>
    simp only [hd, Option.getD_some]
    rcases h _ _ hd with h2 | h2 <;> simp [h2]

/-- Witness for the amended claim C8 at the spec's scenario-1 dictionary. -/
theorem c8_witness :
    map_istock dogDict (map_istock dogDict ["dog", "cat"]) =
      map_istock dogDict ["dog", "cat"] := by
  apply c8_map_istock_idem
  intro k v hkv
  simp only [dogDict] at hkv
  by_cases hk : k = "dog"
  · rw [if_pos hk] at hkv
    injection hkv with hv
    subst hv
    exact Or.inl (by decide)
  · rw [if_neg hk] at hkv
    exact Option.noConfusion hkv

/-!  Dictionary lemmas for the record store.  -/

/-- Inserting a fresh key appends the pair at the end. -/
theorem dictInsert_of_not_mem (m : List (String × Record)) (k : String) (v : Record)
    (h : ∀ p ∈ m, p.1 ≠ k) : dictInsert m k v = m ++ [(k, v)] := by
  simp only [dictInsert]
  rw [if_neg ?_]
  simp only [List.any_eq_true, decide_eq_true_eq, not_exists]
  intro p
  intro hp
  exact h p hp.1 hp.2

/-- Updating an existing key leaves lookups of other keys unchanged. -/
theorem alookup_map_update_ne (m : List (String × Record)) (k kq : String)
    (v : Record) (hne : kq ≠ k) :
    alookup kq (m.map (fun p => if p.1 = k then (k, v) else p)) = alookup kq m := by
  induction m with
  | nil => rfl
  | cons p ps ih =>
    simp only [List.map_cons]
    by_cases hpk : p.1 = k
    · rw [if_pos hpk]
      simp only [alookup]
      rw [if_neg (fun hkq => hne hkq.symm), if_neg (fun hp => hne (hpk ▸ hp).symm)]
      exact ih
    · rw [if_neg hpk]
      simp only [alookup]
      by_cases h2 : p.1 = kq
      · rw [if_pos h2, if_pos h2]
      · rw [if_neg h2, if_neg h2]
        exact ih

/-- Appending a fresh pair leaves lookups of other keys unchanged. -/
theorem alookup_append_single_ne (m : List (String × Record)) (k kq : String)
    (v : Record) (hne : kq ≠ k) :
    alookup kq (m ++ [(k, v)]) = alookup kq m := by
  induction m with
  | nil =>
    simp only [List.nil_append, alookup]
    rw [if_neg (fun hkq => hne hkq.symm)]
  | cons p ps ih =>
    rw [List.cons_append]
    simp only [alookup]
    by_cases h2 : p.1 = kq
    · rw [if_pos h2, if_pos h2]
    · rw [if_neg h2, if_neg h2]
      exact ih

/-- Updating an existing key makes its lookup return the new value. -/
theorem alookup_map_update_self (m : List (String × Record)) (k : String) (v : Record) :
    (∃ p ∈ m, p.1 = k) →
    alookup k (m.map (fun p => if p.1 = k then (k, v) else p)) = some v := by
  induction m with
  | nil =>
    intro hex
    simp at hex
  | cons p ps ih =>
    intro hex
    simp only [List.map_cons]
    by_cases hpk : p.1 = k
    · rw [if_pos hpk]
      simp [alookup]
    · rw [if_neg hpk]
      simp only [alookup]
      rw [if_neg hpk]
      apply ih
      rcases hex with ⟨q, hq, hqk⟩
      rcases List.mem_cons.mp hq with rfl | hq2
      · exact absurd hqk hpk
      · exact ⟨q, hq2, hqk⟩

/-- Appending a fresh pair makes its key's lookup return the new value. -/
theorem alookup_append_single_self (m : List (String × Record)) (k : String) (v : Record) :
    (∀ p ∈ m, p.1 ≠ k) → alookup k (m ++ [(k, v)]) = some v := by
  induction m with
  | nil =>
    intro
    simp [alookup]
  | cons p ps ih =>
    intro hall
    rw [List.cons_append]
    simp only [alookup]
    rw [if_neg (hall p (List.mem_cons_self _ _))]
    exact ih (fun q hq => hall q (List.mem_cons_of_mem _ hq))

/-- After `dictInsert m k v`, looking up `k` yields `v`. -/
theorem alookup_dictInsert_self (m : List (String × Record)) (k : String) (v : Record) :
    alookup k (dictInsert m k v) = some v := by
  simp only [dictInsert]
  by_cases hany : m.any (fun p => decide (p.1 = k)) = true
  · rw [if_pos hany]
    apply alookup_map_update_self
    simpa [List.any_eq_true, decide_eq_true_eq] using hany
  · rw [if_neg hany]
    apply alookup_append_single_self
    intro p hp hpk
    apply hany
    simp only [List.any_eq_true, decide_eq_true_eq]
    exact ⟨p, hp, hpk⟩

/-- After `dictInsert m k v`, looking up any other key is unchanged. -/
theorem alookup_dictInsert_ne (m : List (String × Record)) (k kq : String)
    (v : Record) (hne : kq ≠ k) :
    alookup kq (dictInsert m k v) = alookup kq m := by
  simp only [dictInsert]
  by_cases hany : m.any (fun p => decide (p.1 = k)) = true
  · rw [if_pos hany]
    exact alookup_map_update_ne m k kq v hne
  · rw [if_neg hany]
    exact alookup_append_single_ne m k kq v hne

/-- `dictInsert` preserves the invariant that each key equals its record's
path, provided the inserted key matches its record. -/
theorem dictInsert_wf (m : List (String × Record)) (k : String) (v : Record)
    (hm : ∀ p ∈ m, p.1 = p.2.file_path) (hv : k = v.file_path) :
    ∀ p ∈ dictInsert m k v, p.1 = p.2.file_path := by
  intro p hp
  simp only [dictInsert] at hp
  split at hp
  · obtain ⟨q, hq, rfl⟩ := List.mem_map.mp hp
    by_cases hqk : q.1 = k
    · rw [if_pos hqk]
      exact hv
    · rw [if_neg hqk]
      exact hm q hq
  · rcases List.mem_append.mp hp with hp2 | hp2
    · exact hm p hp2
    · rw [List.mem_singleton.mp hp2]
      exact hv

/-- `dictInsert` preserves distinctness of the keys. -/
theorem dictInsert_keys_nodup (m : List (String × Record)) (k : String) (v : Record)
    (hm : (m.map Prod.fst).Nodup) :
    ((dictInsert m k v).map Prod.fst).Nodup := by
  simp only [dictInsert]
  split
  · have hkeys : (m.map (fun p => if p.1 = k then (k, v) else p)).map Prod.fst =
        m.map Prod.fst := by
      rw [List.map_map]
      apply List.map_congr_left
      intro p _
      by_cases hpk : p.1 = k
      · simp [Function.comp, hpk]

      · simp [Function.comp, hpk]
    rw [hkeys]
    exact hm
  · next hany =>
    rw [List.map_append]
    refine List.Nodup.append hm (by simp) ?_
    intro a ha hb
    simp only [List.map_cons, List.map_nil, List.mem_singleton] at hb
    obtain ⟨p, hp, hpa⟩ := List.mem_map.mp ha
    apply hany
    simp only [List.any_eq_true, decide_eq_true_eq]
    exact ⟨p, hp, by rw [hpa, hb]⟩

/-- Folding `dictInsert` over rows preserves the invariant and distinctness. -/
theorem foldl_dictInsert_wf_nodup (rows : List Record) :
    ∀ acc : List (String × Record),
      (∀ p ∈ acc, p.1 = p.2.file_path) → ((acc.map Prod.fst).Nodup) →
      (∀ p ∈ rows.foldl (fun m r => dictInsert m r.file_path r) acc,
          p.1 = p.2.file_path) ∧
        ((rows.foldl (fun m r => dictInsert m r.file_path r) acc).map Prod.fst).Nodup := by
  induction rows with
  | nil =>
    intro acc h1 h2
    exact ⟨h1, h2⟩
  | cons r rs ih =>
    intro acc h1 h2
    simp only [List.foldl_cons]
    exact ih _ (dictInsert_wf _ _ _ h1 rfl) (dictInsert_keys_nodup _ _ _ h2)

/-- Every key of `buildDict rows` equals its record's path. -/
theorem buildDict_wf (rows : List Record) :
    ∀ p ∈ buildDict rows, p.1 = p.2.file_path :=
  (foldl_dictInsert_wf_nodup rows [] (by simp) (by simp)).1

/-- The keys of `buildDict rows` are distinct. -/
theorem buildDict_keys_nodup (rows : List Record) :
    ((buildDict rows).map Prod.fst).Nodup :=
  (foldl_dictInsert_wf_nodup rows [] (by simp) (by simp)).2

/-- Rebuilding a well-formed dictionary from its stored values gives the
dictionary back: each insert hits a fresh key and appends. -/
theorem foldl_dictInsert_fresh (m : List (String × Record)) :
    ∀ acc : List (String × Record),
      (∀ p ∈ m, p.1 = p.2.file_path) → ((m.map Prod.fst).Nodup) →
      (∀ p ∈ m, ∀ q ∈ acc, q.1 ≠ p.1) →
      (m.map Prod.snd).foldl (fun d r => dictInsert d r.file_path r) acc = acc ++ m := by
  induction m with
  | nil =>
    intro acc _ _ _
    simp
  | cons p ps ih =>
    intro acc hwf hnd hdisj
    simp only [List.map_cons, List.foldl_cons]
    have hp1 : p.2.file_path = p.1 := (hwf p (List.mem_cons_self _ _)).symm
    have hfresh : ∀ q ∈ acc, q.1 ≠ p.2.file_path := by
      intro q hq
      rw [hp1]
      exact hdisj p (List.mem_cons_self _ _) q hq
    rw [List.map_cons] at hnd
    have hnotin : p.1 ∉ ps.map Prod.fst := (List.nodup_cons.mp hnd).1
    have hndtail : (ps.map Prod.fst).Nodup := (List.nodup_cons.mp hnd).2
    rw [dictInsert_of_not_mem _ _ _ hfresh, hp1, Prod.mk.eta]
    rw [ih (acc ++ [p]) (fun q hq => hwf q (List.mem_cons_of_mem _ hq)) hndtail ?_]
    · rw [List.append_assoc]
      rfl
    · intro x hx q hq
      rcases List.mem_append.mp hq with hq2 | hq2
      · exact hdisj x (List.mem_cons_of_mem _ hx) q hq2
      · rw [List.mem_singleton.mp hq2]
        intro hcontra
        exact hnotin (List.mem_map.mpr ⟨x, hx, hcontra.symm⟩)

/-- Rebuilding a well-formed, key-distinct dictionary from its values is
the identity. -/
theorem buildDict_of_values (m : List (String × Record))
    (hwf : ∀ p ∈ m, p.1 = p.2.file_path) (hnd : (m.map Prod.fst).Nodup) :
    buildDict (m.map Prod.snd) = m := by
  have h := foldl_dictInsert_fresh m [] hwf hnd (by simp)
  simpa [buildDict] using h

/-- Any loaded table is well formed with distinct keys. -/
theorem load_db_wf_nodup (s : Store) (folder : String) :
    (∀ p ∈ load_db s folder, p.1 = p.2.file_path) ∧
      ((load_db s folder).map Prod.fst).Nodup := by
  rcases hsf : s folder with _ | rows
  · simp [load_db, hsf]
  · simp only [load_db, hsf]
    exact ⟨buildDict_wf rows, buildDict_keys_nodup rows⟩

/-- Loading right after saving sees exactly the saved insertion. -/
theorem load_save_db (s : Store) (folder : String) (r : Record) :
    load_db (save_db s folder r) folder =
      dictInsert (load_db s folder) r.file_path r := by
  obtain ⟨hwf, hnd⟩ := load_db_wf_nodup s folder
  simp only [load_db, save_db, if_pos rfl]
  exact buildDict_of_values _ (dictInsert_wf _ _ _ hwf rfl)
    (dictInsert_keys_nodup _ _ _ hnd)

/-!  Claim C6.  -/

/-- Claim C6: for every store state, folder and record, `save_db` followed
by `load_db` yields a table containing the record unchanged under its
path key. -/
theorem c6_save_load_roundtrip (s : Store) (folder : String) (r : Record) :
    alookup r.file_path (load_db (save_db s folder r) folder) = some r := by
  rw [load_save_db]
  exact alookup_dictInsert_self _ _ _

/-!  Claim C7.  -/

/-- Claim C7: saving a record for one path leaves records under other paths
unchanged — after saving `r1` then `r2` with distinct paths into the same
folder, loading returns both records unchanged. -/
theorem c7_save_frame (s : Store) (folder : String) (r1 r2 : Record)
    (hne : r1.file_path ≠ r2.file_path) :
    alookup r1.file_path
        (load_db (save_db (save_db s folder r1) folder r2) folder) = some r1 ∧
      alookup r2.file_path
        (load_db (save_db (save_db s folder r1) folder r2) folder) = some r2 := by
  rw [load_save_db]
  constructor
  · rw [alookup_dictInsert_ne _ _ _ _ hne, load_save_db]
    exact alookup_dictInsert_self _ _ _
  · exact alookup_dictInsert_self _ _ _

/-- Record A of the spec's scenario 4. -/
def recA : Record :=
  ⟨"/f/1.jpg", "1.jpg", "2025-01-01 10:00", "title a", "baslik a", "desc a",
    "aciklama a", "kw", "kw", "kw", "kw", "kw", "kw"⟩

/-- Record B of the spec's scenario 4. -/
def recB : Record :=
  ⟨"/f/2.jpg", "2.jpg", "2025-01-01 10:05", "title b", "baslik b", "desc b",
    "aciklama b", "kw", "kw", "kw", "kw", "kw", "kw"⟩

/-- A store with no table saved yet. -/
def emptyStore : Store := fun _ => none

/-- Witness for claim C7 at the spec's scenario 4. -/
theorem c7_witness :
    alookup "/f/1.jpg"
        (load_db (save_db (save_db emptyStore "/f" recA) "/f" recB) "/f") = some recA ∧
      alookup "/f/2.jpg"
        (load_db (save_db (save_db emptyStore "/f" recA) "/f" recB) "/f") = some recB :=
  c7_save_frame emptyStore "/f" recA recB (by decide)

/-!  Claim C9.  -/

/-- Claim C9: `get_thumb` never fails for a video asset whose frame cannot
be read — on a cache miss it degrades to the canvas built from a blank
placeholder image and on a cache hit it returns the cached canvas — whereas
a decode failure on a non-video (image) asset propagates as the error to
the caller. -/
theorem c9_get_thumb_errors (md5hex : String → String) (cache : String → Option Img)
    (makeCanvas : Img → Nat → Nat → Img) (env : MediaEnv) (file_path : String)
    (w h : Nat) (e : String) :
    (pyLower (pathSuffix file_path) ∈ VIDEO_EXTS → env.videoRead = none →
      ∃ c, get_thumb md5hex cache makeCanvas env file_path w h = Except.ok c) ∧
      (pyLower (pathSuffix file_path) ∈ VIDEO_EXTS → env.videoRead = none →
        cache (cacheKey md5hex file_path w h) = none →
        get_thumb md5hex cache makeCanvas env file_path w h =
          Except.ok (makeCanvas (blankImg w h) w h)) ∧
      (pyLower (pathSuffix file_path) ∉ VIDEO_EXTS →
        cache (cacheKey md5hex file_path w h) = none →
        env.imageOpen = Except.error e →
        get_thumb md5hex cache makeCanvas env file_path w h = Except.error e) := by
  refine ⟨?_, ?_, ?_⟩
  · intro hv hr
    rcases hc : cache (cacheKey md5hex file_path w h) with _ | c
    · simp only [get_thumb, hc, if_pos hv, hr]
      exact ⟨_, rfl⟩
    · simp only [get_thumb, hc]
      exact ⟨c, rfl⟩
  · intro hv hr hc
    simp only [get_thumb, hc, if_pos hv, hr]
  · intro hnv hc hi
    simp only [get_thumb, hc, if_neg hnv, hi]

/-- Witness for claim C9: a video path with an unreadable frame yields the
blank placeholder canvas, an image path with a failing decode yields the
decode error. -/
theorem c9_witness :
    (∃ c, get_thumb (fun s => s) (fun _ => none) (fun i _ _ => i)
        ⟨none, Except.error "boom"⟩ "/f/v.mp4" 244 152 = Except.ok c) ∧
      get_thumb (fun s => s) (fun _ => none) (fun i _ _ => i)
          ⟨none, Except.error "boom"⟩ "/f/v.mp4" 244 152 =
        Except.ok (blankImg 244 152) ∧
      get_thumb (fun s => s) (fun _ => none) (fun i _ _ => i)
          ⟨none, Except.error "boom"⟩ "/f/i.jpg" 244 152 = Except.error "boom" := by
  have h1 := c9_get_thumb_errors (fun s => s) (fun _ => none) (fun i _ _ => i)
    ⟨none, Except.error "boom"⟩ "/f/v.mp4" 244 152 "boom"
  have h2 := c9_get_thumb_errors (fun s => s) (fun _ => none) (fun i _ _ => i)
    ⟨none, Except.error "boom"⟩ "/f/i.jpg" 244 152 "boom"
  exact ⟨h1.1 (by decide) rfl, h1.2.1 (by decide) rfl rfl, h2.2.2 (by decide) rfl rfl⟩

/-!  Claim C10.  -/

/-- Claim C10: the thumbnail cache key is not injective — because it hashes
the undelimited concatenation of path, width and height, the distinct
request triples `("/f/a", 1, 23)` and `("/f/a", 12, 3)` produce the same
pre-image `"/f/a123"` and hence the same cache key, whatever digest
function is used. -/
theorem c10_cache_key_collision (md5hex : String → String) :
    cacheKey md5hex "/f/a" 1 23 = cacheKey md5hex "/f/a" 12 3 ∧
      (("/f/a", 1, 23) : String × Nat × Nat) ≠ ("/f/a", 12, 3) :=
  ⟨congrArg md5hex (by decide), by decide⟩

end StockMeta
